import Mathlib

/-!
Shallow embedding of the answer-cache core of the SEBA Class-10 AI tutor
(`app.py`): the `SupabaseCache` class (two-tier cache with TTL expiry,
LRU-style single-entry eviction, graceful degradation) and the
`create_cache_key` key-derivation function (normalization pipeline + MD5).

Modelling conventions:
* Wall-clock instants (`datetime.now()`) are `Int` values counting seconds;
  they are threaded explicitly into each operation that reads the clock.
  `timedelta.days` is floor division of the difference by 86400 (`Int.fdiv`).
* A stored `created_at` value is either absent (`none`, for a missing/NULL
  field) or a string which `datetime.fromisoformat` accepts
  (`TimeStamp.parsable t`, carrying the instant it denotes) or rejects
  (`TimeStamp.unparsable`).  The empty string, which the durable read path
  short-circuits on, behaves exactly like an unparsable string on both paths
  and is subsumed by `TimeStamp.unparsable`.
* `last_accessed` strings are always produced by `isoformat` of the current
  instant, and ISO-8601 strings of a common date compare lexicographically
  exactly as the instants they denote, so they are modelled as the instant.
* The Python `dict` backing `memory_cache` is an association list in
  insertion order: assignment to an existing key replaces in place,
  assignment to a fresh key appends, and `min` over keys returns the first
  key attaining the minimum, as in CPython.
* Each network call into Supabase that the source wraps in `try/except` is
  parametrized by a `Bool` describing whether that call succeeds; a failed
  call leaves the remote table unchanged and is swallowed, as in the source.
-/

namespace SebaCache

/-- Seconds in a day; `timedelta(...).days` floors the difference by this. -/
def secondsPerDay : Int := 86400

/-- `(now - t).days` for two instants measured in seconds: floor division. -/
def daysBetween (now t : Int) : Int := Int.fdiv (now - t) secondsPerDay

/-- A stored `created_at` string: either one `datetime.fromisoformat`
parses (to the instant `t`) or one it raises on. -/
inductive TimeStamp where
  | parsable (t : Int)
  | unparsable
deriving DecidableEq, Repr

/-- A memory-tier cache entry, mirroring the dict built in
`SupabaseCache.set` / the durable branch of `SupabaseCache.get`. -/
structure Entry where
  answer : String
  tokens : Int
  subject : String
  chapter : String
  question : String
  access_count : Int
  created_at : Option TimeStamp
  last_accessed : Int
deriving DecidableEq, Repr

/-- The `data` dict passed to `SupabaseCache.set`: `answer` is accessed
with `data['answer']` (required), the rest with `.get(..., default)`. -/
structure SetData where
  answer : String
  tokens : Option Int
  subject : Option String
  chapter : Option String
  question : Option String
deriving DecidableEq, Repr

/-- A row of the `seba_cache` Supabase table.  Fields the code reads with
`.get` may be absent (`none`). -/
structure Row where
  key_hash : String
  answer : String
  tokens : Option Int
  subject : Option String
  chapter : Option String
  question : Option String
  access_count : Option Int
  created_at : Option TimeStamp
  last_accessed : Option Int
deriving DecidableEq, Repr

/-- The mutable state of a `SupabaseCache` object: configured TTL,
insertion-ordered memory dict, memory capacity, and the optional Supabase
client modelled by the table it reaches (`none` = not connected). -/
structure CacheState where
  ttl_days : Int
  memory_cache : List (String × Entry)
  max_memory_entries : Nat
  supabase : Option (List Row)
deriving DecidableEq, Repr

/-- Dict lookup `memory_cache[k]` / `k in memory_cache`. -/
def dlookup (k : String) : List (String × Entry) → Option Entry
  | [] => none
  | (k', v) :: rest => if k' = k then some v else dlookup k rest

/-- Dict assignment `memory_cache[k] = v`: replace in place if the key is
present (CPython keeps the original position), else append. -/
def dinsert (k : String) (v : Entry) : List (String × Entry) → List (String × Entry)
  | [] => [(k, v)]
  | (k', v') :: rest => if k' = k then (k, v) :: rest else (k', v') :: dinsert k v rest

/-- `del memory_cache[k]`: removes the (first) binding of `k`. -/
def removeKey (k : String) : List (String × Entry) → List (String × Entry)
  | [] => []
  | (k', v) :: rest => if k' = k then rest else (k', v) :: removeKey k rest

/-- `min(memory_cache.keys(), key=lambda k: ...get('last_accessed',''))`:
first key attaining the minimal `last_accessed`, in insertion order. -/
def minKeyByLA : List (String × Entry) → Option (String × Int)
  | [] => none
  | (k, e) :: rest =>
    match minKeyByLA rest with
    | none => some (k, e.last_accessed)
    | some (k', la') =>
      if e.last_accessed ≤ la' then some (k, e.last_accessed) else some (k', la')

/-- The size-bound step run after each memory insert: if the dict exceeds
`maxN` entries, delete the key with the oldest `last_accessed`. -/
def evictStep (maxN : Nat) (m : List (String × Entry)) : List (String × Entry) :=
  if maxN < m.length then
    match minKeyByLA m with
    | some kl => removeKey kl.1 m
    | none => m
  else m

/-- `SupabaseCache._is_valid`: missing `created_at` is invalid (falsy),
an unparsable string is valid (fail open), otherwise age under TTL. -/
def SupabaseCache.is_valid (ttl_days now : Int) (entry : Entry) : Bool :=
  match entry.created_at with
  | none => false
  | some TimeStamp.unparsable => true
  | some (TimeStamp.parsable t) => decide (daysBetween now t < ttl_days)

/-- Supabase `upsert` keyed on `key_hash`: replace the matching row or
append a new one. -/
def upsertRow (r : Row) : List Row → List Row
  | [] => [r]
  | r' :: rest => if r'.key_hash = r.key_hash then r :: rest else r' :: upsertRow r rest

/-- The row `SupabaseCache.set` upserts, built from the fresh entry. -/
def rowOfCacheData (k : String) (e : Entry) : Row :=
  { key_hash := k, question := some e.question, answer := e.answer,
    subject := some e.subject, chapter := some e.chapter, tokens := some e.tokens,
    created_at := e.created_at, last_accessed := some e.last_accessed,
    access_count := some e.access_count }

/-- The Supabase branch of `SupabaseCache.get` (lines 61–137): fetch the
row, decide expiry in Python, delete if expired, otherwise rebuild an
entry, bump its counter remotely (best effort), repopulate the memory
tier (with the size bound) and return it.  `fetchOk`, `deleteOk` and
`updateOk` say whether the corresponding remote call succeeds. -/
def durableGet (now : Int) (k : String) (fetchOk deleteOk updateOk : Bool)
    (st : CacheState) : Option Entry × CacheState :=
  match st.supabase with
  | none => (none, st)
  | some table =>
    if fetchOk then
      match (table.filter (fun r => r.key_hash == k)).head? with
      | none => (none, st)
      | some row =>
        let is_expired : Bool :=
          match row.created_at with
          | some (TimeStamp.parsable t) => decide (st.ttl_days ≤ daysBetween now t)
          | _ => false
        if is_expired then
          let table' := if deleteOk then table.filter (fun r => !(r.key_hash == k)) else table
          (none, { st with supabase := some table' })
        else
          let cached : Entry :=
            { answer := row.answer, tokens := row.tokens.getD 0,
              subject := row.subject.getD "", chapter := row.chapter.getD "",
              question := row.question.getD "",
              access_count := row.access_count.getD 0 + 1,
              created_at := row.created_at, last_accessed := now }
          let table' :=
            if updateOk then
              table.map (fun r =>
                if r.key_hash == k then
                  { r with last_accessed := some now,
                           access_count := some (row.access_count.getD 0 + 1) }
                else r)
            else table
          let mem := evictStep st.max_memory_entries (dinsert k cached st.memory_cache)
          (some cached, { st with supabase := some table', memory_cache := mem })
    else (none, st)

/-- `SupabaseCache.get`: memory tier first; a present-but-invalid entry
falls through to the Supabase branch, as does a missing key. -/
def SupabaseCache.get (now : Int) (k : String) (fetchOk deleteOk updateOk : Bool)
    (st : CacheState) : Option Entry × CacheState :=
  match dlookup k st.memory_cache with
  | some entry =>
    if SupabaseCache.is_valid st.ttl_days now entry then
      let e' := { entry with access_count := entry.access_count + 1, last_accessed := now }
      (some e', { st with memory_cache := dinsert k e' st.memory_cache })
    else durableGet now k fetchOk deleteOk updateOk st
  | none => durableGet now k fetchOk deleteOk updateOk st

/-- `SupabaseCache.set`: build the fresh entry (question truncated to 200
characters, `access_count` 1, both timestamps now), store it in the
memory dict, run the size bound, then best-effort upsert to Supabase. -/
def SupabaseCache.set (now : Int) (k : String) (data : SetData) (upsertOk : Bool)
    (st : CacheState) : CacheState :=
  let cache_data : Entry :=
    { answer := data.answer, tokens := data.tokens.getD 0,
      subject := data.subject.getD "", chapter := data.chapter.getD "",
      question := String.mk ((data.question.getD "").toList.take 200),
      access_count := 1, created_at := some (TimeStamp.parsable now),
      last_accessed := now }
  let mem := evictStep st.max_memory_entries (dinsert k cache_data st.memory_cache)
  let supa := st.supabase.map (fun table =>
    if upsertOk then upsertRow (rowOfCacheData k cache_data) table else table)
  { st with memory_cache := mem, supabase := supa }

/-- The record returned by `SupabaseCache.get_stats`. -/
structure CacheStats where
  total_entries : Int
  memory_entries : Nat
  supabase_entries : Nat
  total_saved_tokens : Int
  ttl_days : Int
  storage_mode : String
  supabase_connected : Bool
deriving DecidableEq, Repr

/-- `SupabaseCache.get_stats`: memory counts are exact; the Supabase count
comes from a remote call (`countOk`), the token sum from a second call over
at most 100 rows (`sampleOk`), both defaulting to 0 on failure. -/
def SupabaseCache.get_stats (countOk sampleOk : Bool) (st : CacheState) : CacheStats :=
  let memory_entries := st.memory_cache.length
  let memory_tokens := (st.memory_cache.map (fun p => p.2.tokens)).sum
  let supabase_entries : Nat :=
    match st.supabase with
    | some table => if countOk then table.length else 0
    | none => 0
  let supabase_tokens : Int :=
    match st.supabase with
    | some table =>
      if countOk && sampleOk && decide (0 < table.length) then
        ((table.take 100).map (fun r => r.tokens.getD 0)).sum
      else 0
    | none => 0
  { total_entries := (memory_entries : Int) + supabase_entries,
    memory_entries := memory_entries,
    supabase_entries := supabase_entries,
    total_saved_tokens := memory_tokens + supabase_tokens,
    ttl_days := st.ttl_days,
    storage_mode := if st.supabase.isSome then "Supabase + Memory" else "Memory Only",
    supabase_connected := st.supabase.isSome }

/-- `SupabaseCache.__init__` + `_init_supabase`: credentials from the
environment (empty string = absent), the `supabase` import (`importOk`)
and the startup existence probe (`probeOk`); if any of these fails the
client is `None` for the life of the process.  `remote` is the table the
client would reach.  Memory starts empty with capacity 100. -/
def SupabaseCache.init (ttl_days : Int) (supabase_url supabase_key : String)
    (importOk probeOk : Bool) (remote : List Row) : CacheState :=
  { ttl_days := ttl_days,
    memory_cache := [],
    max_memory_entries := 100,
    supabase :=
      if supabase_url != "" && supabase_key != "" && importOk && probeOk then
        some remote
      else none }

/-- Fold of `SupabaseCache.set` over a list of (time, key, data) writes. -/
def setMany (items : List (Int × String × SetData)) (st : CacheState) : CacheState :=
  items.foldl (fun s it => SupabaseCache.set it.1 it.2.1 it.2.2 true s) st

/-!
## Key derivation (`create_cache_key`, `app.py` lines 805–827)

Python string primitives are modelled over `List Char`:
* `pyIsSpace` is the whitespace class of `str.strip` / `\s` on `str`
  patterns (`str.isspace`);
* case folding (`str.lower`) is modelled on the ASCII range; the scripts
  this app processes are ASCII and Bengali/Assamese, which is caseless,
  so Python's `lower` agrees on every character the app sees;
* the word class `\w` is modelled as ASCII alphanumerics plus underscore;
  non-ASCII word characters other than the Bengali block (which the regex
  preserves wholesale via the explicit range `ঀ-৿`) do not occur
  in this app's inputs.
-/

/-- Python's whitespace class (`str.isspace`, also `\s` on `str`). -/
def pyIsSpace (c : Char) : Bool :=
  [9, 10, 11, 12, 13, 28, 29, 30, 31, 32, 133, 160, 5760,
   8192, 8193, 8194, 8195, 8196, 8197, 8198, 8199, 8200, 8201, 8202,
   8232, 8233, 8239, 8287, 12288].contains c.toNat

/-- ASCII part of Python's `\w` class: alphanumerics and underscore. -/
def pyIsWordChar (c : Char) : Bool :=
  (48 ≤ c.toNat && c.toNat ≤ 57) || (65 ≤ c.toNat && c.toNat ≤ 90) ||
    (97 ≤ c.toNat && c.toNat ≤ 122) || c = '_'

/-- The Unicode block `ঀ-৿` kept by the punctuation regex. -/
def inBengaliBlock (c : Char) : Bool := 2432 ≤ c.toNat && c.toNat ≤ 2559

/-- `str.strip()`: drop leading and trailing whitespace. -/
def pyStrip (l : List Char) : List Char :=
  ((l.dropWhile pyIsSpace).reverse.dropWhile pyIsSpace).reverse

/-- Worker for `re.sub(r'\s+', ' ', s)`: the flag records whether the
previous character belonged to a whitespace run already emitted. -/
def collapseWsAux : Bool → List Char → List Char
  | _, [] => []
  | prevSpace, c :: rest =>
    if pyIsSpace c then
      if prevSpace then collapseWsAux true rest
      else ' ' :: collapseWsAux true rest
    else c :: collapseWsAux false rest

/-- `re.sub(r'\s+', ' ', s)`: each maximal whitespace run becomes one space. -/
def collapseWs (l : List Char) : List Char := collapseWsAux false l

/-- `s.split(sep)[0]`: the characters before the first occurrence of `sep`
(the whole list when `sep` does not occur). -/
def splitHead (sep : Char) : List Char → List Char
  | [] => []
  | c :: rest => if c = sep then [] else c :: splitHead sep rest

/-- Lines 808–816: `question.strip().lower()`, collapse whitespace runs,
strip punctuation outside `\w`, `\s` and the Bengali block, truncate to
200 characters. -/
def normalize_question (question : String) : List Char :=
  (((collapseWs ((pyStrip question.toList).map Char.toLower)).filter
    (fun c => pyIsWordChar c || pyIsSpace c || inBengaliBlock c)).take 200)

/-- Line 820: `subject.split('(')[0].strip() if '(' in subject else subject`.
Note the `else` branch is the raw, untrimmed string. -/
def normalize_subject (subject : String) : List Char :=
  if subject.toList.contains '(' then pyStrip (splitHead '(' subject.toList)
  else subject.toList

/-- Line 822: `chapter_name.split(':')[0].strip() if ':' in chapter_name
else chapter_name`.  Again the `else` branch is untrimmed. -/
def normalize_chapter (chapter_name : String) : List Char :=
  if chapter_name.toList.contains ':' then pyStrip (splitHead ':' chapter_name.toList)
  else chapter_name.toList

/-- Line 824: `f"{normalized_subject}|{normalized_chapter}|{normalized_question}"`. -/
def key_string (question subject chapter_name : String) : List Char :=
  normalize_subject subject ++ '|' :: normalize_chapter chapter_name
    ++ '|' :: normalize_question question

/-!
### MD5 (`hashlib.md5(key_string.encode()).hexdigest()`)

A byte-level implementation of RFC 1321 over `Nat` (all words reduced
mod `2^32`), applied to the UTF-8 encoding of the key string.
-/

/-- Arithmetic modulus for 32-bit words. -/
def M32 : Nat := 4294967296

/-- 32-bit addition. -/
def add32 (a b : Nat) : Nat := (a + b) % M32

/-- 32-bit complement. -/
def not32 (x : Nat) : Nat := x ^^^ 4294967295

/-- 32-bit left rotation. -/
def rotl32 (x s : Nat) : Nat := (x * 2 ^ s + x / 2 ^ (32 - s)) % M32

/-- The MD5 sine-derived round constants `K[0..63]`. -/
def md5K : List Nat :=
  [0xd76aa478, 0xe8c7b756, 0x242070db, 0xc1bdceee,
   0xf57c0faf, 0x4787c62a, 0xa8304613, 0xfd469501,
   0x698098d8, 0x8b44f7af, 0xffff5bb1, 0x895cd7be,
   0x6b901122, 0xfd987193, 0xa679438e, 0x49b40821,
   0xf61e2562, 0xc040b340, 0x265e5a51, 0xe9b6c7aa,
   0xd62f105d, 0x02441453, 0xd8a1e681, 0xe7d3fbc8,
   0x21e1cde6, 0xc33707d6, 0xf4d50d87, 0x455a14ed,
   0xa9e3e905, 0xfcefa3f8, 0x676f02d9, 0x8d2a4c8a,
   0xfffa3942, 0x8771f681, 0x6d9d6122, 0xfde5380c,
   0xa4beea44, 0x4bdecfa9, 0xf6bb4b60, 0xbebfbc70,
   0x289b7ec6, 0xeaa127fa, 0xd4ef3085, 0x04881d05,
   0xd9d4d039, 0xe6db99e5, 0x1fa27cf8, 0xc4ac5665,
   0xf4292244, 0x432aff97, 0xab9423a7, 0xfc93a039,
   0x655b59c3, 0x8f0ccc92, 0xffeff47d, 0x85845dd1,
   0x6fa87e4f, 0xfe2ce6e0, 0xa3014314, 0x4e0811a1,
   0xf7537e82, 0xbd3af235, 0x2ad7d2bb, 0xeb86d391]

/-- The MD5 per-round left-rotation amounts `s[0..63]`. -/
def md5S : List Nat :=
  [7, 12, 17, 22, 7, 12, 17, 22, 7, 12, 17, 22, 7, 12, 17, 22,
   5, 9, 14, 20, 5, 9, 14, 20, 5, 9, 14, 20, 5, 9, 14, 20,
   4, 11, 16, 23, 4, 11, 16, 23, 4, 11, 16, 23, 4, 11, 16, 23,
   6, 10, 15, 21, 6, 10, 15, 21, 6, 10, 15, 21, 6, 10, 15, 21]

/-- Little-endian byte rendering of `n` over the given byte count. -/
def toLE (n : Nat) : Nat → List Nat
  | 0 => []
  | b + 1 => n % 256 :: toLE (n / 256) b

/-- MD5 padding: `0x80`, zeros to 56 mod 64, 64-bit little-endian bit length. -/
def md5Pad (msg : List Nat) : List Nat :=
  msg ++ 128 :: List.replicate ((119 - msg.length % 64) % 64) 0
    ++ toLE (msg.length * 8 % 2 ^ 64) 8

/-- Split into 64-byte blocks; the fuel (initial list length) dominates
the number of blocks, so the result is exactly the chunking. -/
def chunks64Aux : Nat → List Nat → List (List Nat)
  | 0, _ => []
  | _, [] => []
  | fuel + 1, l => l.take 64 :: chunks64Aux fuel (l.drop 64)

/-- Split a padded message into 64-byte blocks. -/
def chunks64 (l : List Nat) : List (List Nat) := chunks64Aux l.length l

/-- Little-endian 32-bit word from a byte list. -/
def leWord (l : List Nat) : Nat := l.foldr (fun b acc => b + 256 * acc) 0

/-- The MD5 round function for round `i`. -/
def md5F (i b c d : Nat) : Nat :=
  if i < 16 then (b &&& c) ||| (not32 b &&& d)
  else if i < 32 then (d &&& b) ||| (not32 d &&& c)
  else if i < 48 then b ^^^ c ^^^ d
  else c ^^^ (b ||| not32 d)

/-- The MD5 message-word schedule for round `i`. -/
def md5G (i : Nat) : Nat :=
  if i < 16 then i
  else if i < 32 then (5 * i + 1) % 16
  else if i < 48 then (3 * i + 5) % 16
  else (7 * i) % 16

/-- One 64-byte MD5 block applied to the running state `(a, b, c, d)`. -/
def md5Block (block : List Nat) (st : Nat × Nat × Nat × Nat) : Nat × Nat × Nat × Nat :=
  let w : Nat → Nat := fun g => leWord ((block.drop (4 * g)).take 4)
  let step : Nat × Nat × Nat × Nat → Nat → Nat × Nat × Nat × Nat := fun abcd i =>
    let f := add32 (add32 (add32 (md5F i abcd.2.1 abcd.2.2.1 abcd.2.2.2) abcd.1)
      (md5K.getD i 0)) (w (md5G i))
    (abcd.2.2.2, add32 abcd.2.1 (rotl32 f (md5S.getD i 0)), abcd.2.1, abcd.2.2.1)
  let r := (List.range 64).foldl step st
  (add32 st.1 r.1, add32 st.2.1 r.2.1, add32 st.2.2.1 r.2.2.1, add32 st.2.2.2 r.2.2.2)

/-- The 16 MD5 digest bytes of a byte message. -/
def md5Digest (msg : List Nat) : List Nat :=
  let r := (chunks64 (md5Pad msg)).foldl (fun s blk => md5Block blk s)
    (0x67452301, 0xefcdab89, 0x98badcfe, 0x10325476)
  toLE r.1 4 ++ toLE r.2.1 4 ++ toLE r.2.2.1 4 ++ toLE r.2.2.2 4

/-- Lowercase hex digit. -/
def hexDigit (n : Nat) : Char := if n < 10 then Char.ofNat (48 + n) else Char.ofNat (87 + n)

/-- Lowercase hex rendering of a byte list. -/
def bytesToHex (l : List Nat) : List Char :=
  l.foldr (fun b acc => hexDigit (b / 16) :: hexDigit (b % 16) :: acc) []

/-- `hashlib.md5(bytes).hexdigest()`. -/
def md5hexBytes (msg : List Nat) : String := String.mk (bytesToHex (md5Digest msg))

/-- UTF-8 encoding of one code point. -/
def utf8Char (n : Nat) : List Nat :=
  if n < 128 then [n]
  else if n < 2048 then [192 + n / 64, 128 + n % 64]
  else if n < 65536 then [224 + n / 4096, 128 + n / 64 % 64, 128 + n % 64]
  else [240 + n / 262144, 128 + n / 4096 % 64, 128 + n / 64 % 64, 128 + n % 64]

/-- `str.encode()`: UTF-8 bytes of a character list. -/
def utf8Encode (l : List Char) : List Nat := (l.map (fun c => utf8Char c.toNat)).flatten

/-- `create_cache_key` (lines 805–827): MD5 hex digest of the UTF-8
encoding of the normalized `subject|chapter|question` string. -/
def create_cache_key (question subject chapter_name : String) : String :=
  md5hexBytes (utf8Encode (key_string question subject chapter_name))

/-- Sanity check of the MD5 embedding against the RFC 1321 test vector. -/
theorem md5_rfc_vector :
    md5hexBytes (utf8Encode "abc".toList) = "900150983cd24fb0d6963f7d28e17f72" := by
  set_option maxRecDepth 10000 in decide

/-!
## Helper lemmas about the memory dict and eviction
-/

theorem dlookup_dinsert_self (k : String) (v : Entry) (m : List (String × Entry)) :
    dlookup k (dinsert k v m) = some v := by
  induction m with
  | nil => simp [dinsert, dlookup]
  | cons p rest ih =>
    by_cases h : p.1 = k
    · simp [dinsert, dlookup, h]
    · simp [dinsert, dlookup, h, ih]

theorem length_dinsert_le (k : String) (v : Entry) (m : List (String × Entry)) :
    (dinsert k v m).length ≤ m.length + 1 := by
  induction m with
  | nil => simp [dinsert]
  | cons p rest ih =>
    by_cases h : p.1 = k
    · simp [dinsert, h]
    · simp only [dinsert, if_neg h, List.length_cons]
      omega

theorem length_dinsert_mem (k : String) (v : Entry) (m : List (String × Entry))
    (h : k ∈ m.map Prod.fst) : (dinsert k v m).length = m.length := by
  induction m with
  | nil => simp at h
  | cons p rest ih =>
    by_cases hp : p.1 = k
    · simp [dinsert, hp]
    · have hrest : k ∈ rest.map Prod.fst := by
        simp only [List.map_cons, List.mem_cons] at h
        exact h.resolve_left (fun he => hp he.symm)
      simp [dinsert, hp, ih hrest]

theorem length_dinsert_not_mem (k : String) (v : Entry) (m : List (String × Entry))
    (h : k ∉ m.map Prod.fst) : (dinsert k v m).length = m.length + 1 := by
  induction m with
  | nil => simp [dinsert]
  | cons p rest ih =>
    simp only [List.map_cons, List.mem_cons, not_or] at h
    have hp : p.1 ≠ k := fun he => h.1 he.symm
    simp [dinsert, hp, ih h.2]

theorem evictStep_eq_of_le {m : List (String × Entry)} {maxN : Nat}
    (h : m.length ≤ maxN) : evictStep maxN m = m := by
  simp [evictStep, Nat.not_lt.mpr h]

theorem daysBetween_self (now : Int) : daysBetween now now = 0 := by
  simp [daysBetween, Int.fdiv]

/-- The entry `SupabaseCache.set` builds from its `data` argument at
instant `now` (the `cache_data` dict of lines 144–153). -/
def freshEntry (now : Int) (d : SetData) : Entry :=
  { answer := d.answer, tokens := d.tokens.getD 0, subject := d.subject.getD "",
    chapter := d.chapter.getD "", question := String.mk ((d.question.getD "").toList.take 200),
    access_count := 1, created_at := some (TimeStamp.parsable now), last_accessed := now }

theorem set_memory_cache (now : Int) (k : String) (d : SetData) (uOk : Bool)
    (st : CacheState) :
    (SupabaseCache.set now k d uOk st).memory_cache
      = evictStep st.max_memory_entries (dinsert k (freshEntry now d) st.memory_cache) := rfl

theorem set_memory_cache_of_room (now : Int) (k : String) (d : SetData) (uOk : Bool)
    (st : CacheState) (hcap : st.memory_cache.length < st.max_memory_entries) :
    (SupabaseCache.set now k d uOk st).memory_cache
      = dinsert k (freshEntry now d) st.memory_cache := by
  rw [set_memory_cache]
  exact evictStep_eq_of_le (le_trans (length_dinsert_le k _ st.memory_cache) hcap)

theorem is_valid_fresh (ttl now : Int) (d : SetData) (httl : 0 < ttl) :
    SupabaseCache.is_valid ttl now (freshEntry now d) = true := by
  simp [SupabaseCache.is_valid, freshEntry, daysBetween_self, httl]

/-- Claim C1: after `set(k, d)`, an immediate `get(k)` hits the memory
tier and returns an entry whose `answer`, `subject`, `chapter` equal
`d`'s, whose `tokens` is `d`'s or defaults to 0, and whose
`access_count` is exactly 2 (1 at creation plus 1 from the read). -/
theorem set_then_get_roundtrip (st : CacheState) (now : Int) (k : String) (d : SetData)
    (uOk fOk dOk upOk : Bool)
    (hcap : st.memory_cache.length < st.max_memory_entries)
    (httl : 0 < st.ttl_days) :
    ∃ e : Entry,
      (SupabaseCache.get now k fOk dOk upOk (SupabaseCache.set now k d uOk st)).1 = some e ∧
      e.answer = d.answer ∧ e.subject = d.subject.getD "" ∧ e.chapter = d.chapter.getD "" ∧
      e.tokens = d.tokens.getD 0 ∧ 1 ≤ e.access_count ∧ e.access_count = 2 := by
  have hmem := set_memory_cache_of_room now k d uOk st hcap
  have hset : (SupabaseCache.set now k d uOk st).ttl_days = st.ttl_days := rfl
  have hv : SupabaseCache.is_valid st.ttl_days now (freshEntry now d) = true :=
    is_valid_fresh st.ttl_days now d httl
  refine ⟨{ freshEntry now d with access_count := 1 + 1, last_accessed := now }, ?_,
    rfl, rfl, rfl, rfl, (by norm_num : (1 : Int) ≤ 1 + 1), (by norm_num : (1 : Int) + 1 = 2)⟩
  simp only [SupabaseCache.get, hmem, dlookup_dinsert_self, hset, hv, if_true]
  rfl

/-- Witness for C1 at a concrete state and data record. -/
theorem set_then_get_roundtrip_witness :
    ∃ e : Entry,
      (SupabaseCache.get 5 "k" true true true
        (SupabaseCache.set 5 "k"
          { answer := "ans", tokens := some 120, subject := some "s",
            chapter := some "c", question := some "q" } true
          { ttl_days := 7, memory_cache := [], max_memory_entries := 100,
            supabase := none })).1 = some e ∧
      e.answer = "ans" ∧ e.subject = (some "s").getD "" ∧ e.chapter = (some "c").getD "" ∧
      e.tokens = (some (120 : Int)).getD 0 ∧ 1 ≤ e.access_count ∧ e.access_count = 2 :=
  set_then_get_roundtrip
    { ttl_days := 7, memory_cache := [], max_memory_entries := 100, supabase := none }
    5 "k" { answer := "ans", tokens := some 120, subject := some "s",
            chapter := some "c", question := some "q" }
    true true true true (by decide) (by decide)

theorem daysBetween_sub_days (now x : Int) :
    daysBetween now (now - x * 86400) = x := by
  unfold daysBetween secondsPerDay
  rw [sub_sub_cancel]
  exact Int.mul_fdiv_cancel x (by norm_num)

/-- Claim C2: validity is the entry's age against the TTL in days on both
read paths: an entry created (TTL − 1) days ago is valid — a hit from the
memory tier's `_is_valid` and from the durable read path — and an entry
created (TTL + 1) days ago is expired — a miss on both. -/
theorem ttl_boundary :
    (∀ (e : Entry) (ttl now : Int),
      SupabaseCache.is_valid ttl now
        { e with created_at := some (TimeStamp.parsable (now - (ttl - 1) * 86400)) } = true) ∧
    (∀ (e : Entry) (ttl now : Int),
      SupabaseCache.is_valid ttl now
        { e with created_at := some (TimeStamp.parsable (now - (ttl + 1) * 86400)) } = false) ∧
    (∀ (ttl now : Int) (maxN : Nat) (row : Row) (dOk upOk : Bool),
      row.created_at = some (TimeStamp.parsable (now - (ttl - 1) * 86400)) →
      ((SupabaseCache.get now row.key_hash true dOk upOk
        { ttl_days := ttl, memory_cache := [], max_memory_entries := maxN,
          supabase := some [row] }).1).isSome = true) ∧
    (∀ (ttl now : Int) (maxN : Nat) (row : Row) (dOk upOk : Bool),
      row.created_at = some (TimeStamp.parsable (now - (ttl + 1) * 86400)) →
      (SupabaseCache.get now row.key_hash true dOk upOk
        { ttl_days := ttl, memory_cache := [], max_memory_entries := maxN,
          supabase := some [row] }).1 = none) := by
  refine ⟨?_, ?_, ?_, ?_⟩
  · intro e ttl now
    have h : ttl - 1 < ttl := by omega
    simp [SupabaseCache.is_valid, daysBetween_sub_days, h]
  · intro e ttl now
    have h : ¬ (ttl + 1 < ttl) := by omega
    simp [SupabaseCache.is_valid, daysBetween_sub_days, h]
  · intro ttl now maxN row dOk upOk hrow
    have h : ¬ (ttl ≤ ttl - 1) := by omega
    simp [SupabaseCache.get, dlookup, durableGet, hrow, daysBetween_sub_days, h]
  · intro ttl now maxN row dOk upOk hrow
    have h : ttl ≤ ttl + 1 := by omega
    simp [SupabaseCache.get, dlookup, durableGet, hrow, daysBetween_sub_days, h]

/-- A concrete durable row for the C2 witness, created `ageDays` days
before instant 0. -/
def sampleRow (ageDays : Int) : Row :=
  { key_hash := "k", answer := "a", tokens := none, subject := none,
    chapter := none, question := none, access_count := none,
    created_at := some (TimeStamp.parsable (0 - ageDays * 86400)),
    last_accessed := none }

/-- Witness for C2's durable-path conjuncts at TTL 7 and instant 0. -/
theorem ttl_boundary_witness :
    ((SupabaseCache.get 0 "k" true true true
      { ttl_days := 7, memory_cache := [], max_memory_entries := 100,
        supabase := some [sampleRow (7 - 1)] }).1).isSome = true ∧
    (SupabaseCache.get 0 "k" true true true
      { ttl_days := 7, memory_cache := [], max_memory_entries := 100,
        supabase := some [sampleRow (7 + 1)] }).1 = none :=
  ⟨ttl_boundary.2.2.1 7 0 100 (sampleRow (7 - 1)) true true rfl,
    ttl_boundary.2.2.2 7 0 100 (sampleRow (7 + 1)) true true rfl⟩

/-!
## Spec-side definitions for the key-derivation claims

These follow the spec's words (not the source) and are compared against
the source-derived definitions above.
-/

/-- Spec-side: erase every whitespace and removable-punctuation character
and fold case, keeping word characters and the preserved Bengali block.
Two strings "differ only in whitespace, letter case, or punctuation
outside the preserved Unicode block" exactly when these agree. -/
def stripWsCasePunct (s : String) : List Char :=
  (s.toList.filter (fun c => pyIsWordChar c || inBengaliBlock c)).map Char.toLower

/-- Spec-side: the claim's equivalence "differ only in whitespace, letter
case, or punctuation outside the preserved Unicode block". -/
def differOnlyInWsCasePunct (a b : String) : Bool :=
  stripWsCasePunct a == stripWsCasePunct b

/-- Spec-side (C4): "the substring before the first `(` if one is present,
else the whole string", trimmed in either case. -/
def spec_normalize_subject (s : String) : List Char :=
  pyStrip (s.toList.takeWhile (fun c => !(c = '(')))

/-- Spec-side (C4): "the substring before the first `:` if present, else
the whole string", trimmed in either case. -/
def spec_normalize_chapter (s : String) : List Char :=
  pyStrip (s.toList.takeWhile (fun c => !(c = ':')))

/-- Counterexample to Claim C3 as stated: `"a?b"` and `"a b"` differ only
in whitespace/punctuation, yet they derive different keys — the question
normalization removes punctuation after collapsing whitespace, so `"a?b"`
normalizes to `"ab"` while `"a b"` stays `"a b"`. -/
theorem key_ws_punct_counterexample :
    differOnlyInWsCasePunct "a?b" "a b" = true ∧
    ¬ (create_cache_key "a?b" "s" "c" = create_cache_key "a b" "s" "c") := by
  constructor
  · decide
  · set_option maxRecDepth 10000 in decide

/-- Claim C3 (amended): key derivation is deterministic, two triples whose
components normalize identically under the source pipeline derive the same
key, and in particular the spec's example pair `"What is X?"` /
`"what is x"` derives the same key for any fixed subject and chapter. -/
theorem key_derivation_determinism :
    (∀ q s c, create_cache_key q s c = create_cache_key q s c) ∧
    (∀ q1 q2 s1 s2 c1 c2,
      normalize_question q1 = normalize_question q2 →
      normalize_subject s1 = normalize_subject s2 →
      normalize_chapter c1 = normalize_chapter c2 →
      create_cache_key q1 s1 c1 = create_cache_key q2 s2 c2) ∧
    (∀ s c, create_cache_key "What is X?" s c = create_cache_key "what is x" s c) := by
  have hkey : ∀ q1 q2 s1 s2 c1 c2,
      normalize_question q1 = normalize_question q2 →
      normalize_subject s1 = normalize_subject s2 →
      normalize_chapter c1 = normalize_chapter c2 →
      create_cache_key q1 s1 c1 = create_cache_key q2 s2 c2 := by
    intro q1 q2 s1 s2 c1 c2 h1 h2 h3
    unfold create_cache_key key_string
    rw [h1, h2, h3]
  refine ⟨fun q s c => rfl, hkey, ?_⟩
  intro s c
  exact hkey _ _ s s c c (by decide) rfl rfl

/-- Witness for C3's amended normalization implication at the spec's
example pair. -/
theorem key_derivation_determinism_witness :
    create_cache_key "What is X?" "sub" "ch" = create_cache_key "what is x" "sub" "ch" :=
  key_derivation_determinism.2.1 "What is X?" "what is x" "sub" "sub" "ch" "ch"
    (by decide) rfl rfl

theorem splitHead_eq_takeWhile (sep : Char) (l : List Char) :
    splitHead sep l = l.takeWhile (fun c => !(c = sep)) := by
  induction l with
  | nil => rfl
  | cons c rest ih =>
    by_cases h : c = sep
    · simp [splitHead, h]
    · simp [splitHead, h, ih]

/-- Counterexample to Claim C4 as stated: for a subject with no `(`, the
source uses the whole string without trimming, so `" m "` keeps its
surrounding whitespace instead of being trimmed as the claim requires. -/
theorem subject_trim_counterexample :
    ¬ (normalize_subject " m " = spec_normalize_subject " m ") := by decide

/-- Claim C4 (amended): when the delimiter is present the source takes the
substring before its first occurrence and trims it; when it is absent the
whole string is used untrimmed (not trimmed, as the claim stated). -/
theorem subject_chapter_normalization :
    (∀ s : String, s.toList.contains '(' = true →
      normalize_subject s = spec_normalize_subject s) ∧
    (∀ s : String, s.toList.contains '(' = false →
      normalize_subject s = s.toList) ∧
    (∀ s : String, s.toList.contains ':' = true →
      normalize_chapter s = spec_normalize_chapter s) ∧
    (∀ s : String, s.toList.contains ':' = false →
      normalize_chapter s = s.toList) := by
  refine ⟨?_, ?_, ?_, ?_⟩
  · intro s h
    have hm : '(' ∈ s.toList := by simpa using h
    simp [normalize_subject, spec_normalize_subject, hm, splitHead_eq_takeWhile]
    intro hc
    exact absurd hm hc
  · intro s h
    have hm : '(' ∉ s.toList := by simpa using h
    simp [normalize_subject, hm]
    intro hc
    exact absurd hc hm
  · intro s h
    have hm : ':' ∈ s.toList := by simpa using h
    simp [normalize_chapter, spec_normalize_chapter, hm, splitHead_eq_takeWhile]
    intro hc
    exact absurd hm hc
  · intro s h
    have hm : ':' ∉ s.toList := by simpa using h
    simp [normalize_chapter, hm]
    intro hc
    exact absurd hc hm

/-- Witness for C4's amended claim on concrete subjects and chapters. -/
theorem subject_chapter_normalization_witness :
    (normalize_subject "গণিত (Mathematics)" = spec_normalize_subject "গণিত (Mathematics)") ∧
    (normalize_subject " m " = " m ".toList) ∧
    (normalize_chapter "ch 1: intro" = spec_normalize_chapter "ch 1: intro") ∧
    (normalize_chapter " c " = " c ".toList) :=
  ⟨subject_chapter_normalization.1 "গণিত (Mathematics)" (by decide),
    subject_chapter_normalization.2.1 " m " (by decide),
    subject_chapter_normalization.2.2.1 "ch 1: intro" (by decide),
    subject_chapter_normalization.2.2.2 " c " (by decide)⟩

/-!
## Lemmas for the eviction claim
-/

theorem minKeyByLA_eq_none {m : List (String × Entry)}
    (h : minKeyByLA m = none) : m = [] := by
  cases m with
  | nil => rfl
  | cons p rest =>
    obtain ⟨k, e⟩ := p
    simp only [minKeyByLA] at h
    cases hm : minKeyByLA rest with
    | none => rw [hm] at h; simp at h
    | some kl' =>
      rw [hm] at h
      by_cases hle : e.last_accessed ≤ kl'.2 <;> simp [hle] at h

theorem minKeyByLA_mem {m : List (String × Entry)} {kl : String × Int}
    (h : minKeyByLA m = some kl) :
    ∃ e, (kl.1, e) ∈ m ∧ e.last_accessed = kl.2 := by
  induction m generalizing kl with
  | nil => simp [minKeyByLA] at h
  | cons p rest ih =>
    obtain ⟨k, e⟩ := p
    simp only [minKeyByLA] at h
    cases hm : minKeyByLA rest with
    | none =>
      rw [hm] at h
      simp only [Option.some.injEq] at h
      subst h
      exact ⟨e, List.mem_cons_self _ _, rfl⟩
    | some kl' =>
      obtain ⟨k1, la1⟩ := kl'
      rw [hm] at h
      simp only at h
      by_cases hle : e.last_accessed ≤ la1
      · rw [if_pos hle] at h
        simp only [Option.some.injEq] at h
        subst h
        exact ⟨e, List.mem_cons_self _ _, rfl⟩
      · rw [if_neg hle] at h
        simp only [Option.some.injEq] at h
        subst h
        obtain ⟨e', he', hla⟩ := ih hm
        exact ⟨e', List.mem_cons_of_mem _ he', hla⟩

theorem minKeyByLA_le {m : List (String × Entry)} {kl : String × Int}
    (h : minKeyByLA m = some kl) :
    ∀ p ∈ m, kl.2 ≤ p.2.last_accessed := by
  induction m generalizing kl with
  | nil => simp [minKeyByLA] at h
  | cons q rest ih =>
    obtain ⟨k, e⟩ := q
    simp only [minKeyByLA] at h
    cases hm : minKeyByLA rest with
    | none =>
      rw [hm] at h
      simp only [Option.some.injEq] at h
      subst h
      have hrest : rest = [] := minKeyByLA_eq_none hm
      subst hrest
      intro p hp
      rcases List.mem_cons.mp hp with h1 | h1
      · subst h1; exact le_refl _
      · simp at h1
    | some kl' =>
      obtain ⟨k1, la1⟩ := kl'
      rw [hm] at h
      simp only at h
      by_cases hle : e.last_accessed ≤ la1
      · rw [if_pos hle] at h
        simp only [Option.some.injEq] at h
        subst h
        intro p hp
        rcases List.mem_cons.mp hp with h1 | h1
        · subst h1; exact le_refl _
        · exact le_trans hle (ih hm p h1)
      · rw [if_neg hle] at h
        simp only [Option.some.injEq] at h
        subst h
        intro p hp
        rcases List.mem_cons.mp hp with h1 | h1
        · subst h1
          show la1 ≤ e.last_accessed
          omega
        · exact ih hm p h1

theorem length_removeKey_mem {k : String} {m : List (String × Entry)}
    (h : k ∈ m.map Prod.fst) : (removeKey k m).length = m.length - 1 := by
  induction m with
  | nil => simp at h
  | cons p rest ih =>
    by_cases hp : p.1 = k
    · simp [removeKey, hp]
    · have hr : k ∈ rest.map Prod.fst := by
        simp only [List.map_cons, List.mem_cons] at h
        exact h.resolve_left (fun he => hp he.symm)
      have hpos : 0 < rest.length := by
        cases rest with
        | nil => simp at hr
        | cons _ _ => simp
      simp only [removeKey, if_neg hp, List.length_cons, ih hr]
      omega

theorem mem_keys_dinsert {k' k : String} {v : Entry} {m : List (String × Entry)}
    (h : k' ∈ (dinsert k v m).map Prod.fst) : k' = k ∨ k' ∈ m.map Prod.fst := by
  induction m with
  | nil => simpa [dinsert] using h
  | cons p rest ih =>
    by_cases hp : p.1 = k
    · simp only [dinsert, if_pos hp, List.map_cons, List.mem_cons] at h
      rcases h with h | h
      · exact Or.inl h
      · exact Or.inr (by simp [List.mem_cons, h])
    · simp only [dinsert, if_neg hp, List.map_cons, List.mem_cons] at h
      rcases h with h | h
      · exact Or.inr (by simp [List.mem_cons, h])
      · rcases ih h with h1 | h1
        · exact Or.inl h1
        · exact Or.inr (by simp [List.mem_cons, h1])

theorem mem_keys_removeKey {k' k : String} {m : List (String × Entry)}
    (h : k' ∈ (removeKey k m).map Prod.fst) : k' ∈ m.map Prod.fst := by
  induction m with
  | nil => simp [removeKey] at h
  | cons p rest ih =>
    by_cases hp : p.1 = k
    · simp only [removeKey, if_pos hp] at h
      simp [List.mem_cons, h]
    · simp only [removeKey, if_neg hp, List.map_cons, List.mem_cons] at h ⊢
      rcases h with h | h
      · exact Or.inl h
      · exact Or.inr (ih h)

theorem length_evictStep_of_gt {maxN : Nat} {m : List (String × Entry)}
    (h : m.length = maxN + 1) : (evictStep maxN m).length = maxN := by
  have hlt : maxN < m.length := by omega
  have hne : m ≠ [] := by
    intro he
    rw [he] at h
    simp at h
  cases hm : minKeyByLA m with
  | none => exact absurd (minKeyByLA_eq_none hm) hne
  | some kl =>
    obtain ⟨e, hmem, _⟩ := minKeyByLA_mem hm
    have hk : kl.1 ∈ m.map Prod.fst := List.mem_map.mpr ⟨(kl.1, e), hmem, rfl⟩
    simp only [evictStep, if_pos hlt, hm]
    rw [length_removeKey_mem hk, h]
    omega

theorem mem_keys_evictStep {k' : String} {maxN : Nat} {m : List (String × Entry)}
    (h : k' ∈ (evictStep maxN m).map Prod.fst) : k' ∈ m.map Prod.fst := by
  by_cases hlt : maxN < m.length
  · simp only [evictStep, if_pos hlt] at h
    cases hm : minKeyByLA m with
    | none => rw [hm] at h; exact h
    | some kl => rw [hm] at h; exact mem_keys_removeKey h
  · simpa only [evictStep, if_neg hlt] using h

theorem set_length_fresh (now : Int) (k : String) (d : SetData) (u : Bool)
    (st : CacheState) (hk : k ∉ st.memory_cache.map Prod.fst)
    (hle : st.memory_cache.length ≤ st.max_memory_entries) :
    (SupabaseCache.set now k d u st).memory_cache.length
      = min (st.memory_cache.length + 1) st.max_memory_entries := by
  rw [set_memory_cache]
  have hlen := length_dinsert_not_mem k (freshEntry now d) st.memory_cache hk
  by_cases hlt : st.max_memory_entries
      < (dinsert k (freshEntry now d) st.memory_cache).length
  · rw [length_evictStep_of_gt (by omega)]
    omega
  · rw [evictStep_eq_of_le (by omega)]
    omega

theorem mem_keys_set {k' : String} (now : Int) (k : String) (d : SetData) (u : Bool)
    (st : CacheState)
    (h : k' ∈ (SupabaseCache.set now k d u st).memory_cache.map Prod.fst) :
    k' = k ∨ k' ∈ st.memory_cache.map Prod.fst := by
  rw [set_memory_cache] at h
  exact mem_keys_dinsert (mem_keys_evictStep h)

theorem setMany_length (items : List (Int × String × SetData)) (st : CacheState)
    (hfresh : ∀ it ∈ items, it.2.1 ∉ st.memory_cache.map Prod.fst)
    (hnd : (items.map (fun it => it.2.1)).Nodup)
    (hle : st.memory_cache.length ≤ st.max_memory_entries) :
    (setMany items st).memory_cache.length
      = min (st.memory_cache.length + items.length) st.max_memory_entries := by
  induction items generalizing st with
  | nil =>
    simp only [setMany, List.foldl_nil, List.length_nil, Nat.add_zero]
    omega
  | cons it rest ih =>
    have hstep : setMany (it :: rest) st
        = setMany rest (SupabaseCache.set it.1 it.2.1 it.2.2 true st) := rfl
    rw [hstep]
    have hk : it.2.1 ∉ st.memory_cache.map Prod.fst :=
      hfresh it (List.mem_cons_self _ _)
    have hlen' : (SupabaseCache.set it.1 it.2.1 it.2.2 true st).memory_cache.length
        = min (st.memory_cache.length + 1) st.max_memory_entries :=
      set_length_fresh it.1 it.2.1 it.2.2 true st hk hle
    have hmax' : (SupabaseCache.set it.1 it.2.1 it.2.2 true st).max_memory_entries
        = st.max_memory_entries := rfl
    have hnd' := (List.nodup_cons.mp hnd).2
    have hhd := (List.nodup_cons.mp hnd).1
    have hfresh' : ∀ it' ∈ rest,
        it'.2.1 ∉ (SupabaseCache.set it.1 it.2.1 it.2.2 true st).memory_cache.map Prod.fst := by
      intro it' hit' hmem
      rcases mem_keys_set it.1 it.2.1 it.2.2 true st hmem with he | hm
      · apply hhd
        show it.2.1 ∈ List.map (fun it => it.2.1) rest
        rw [← he]
        exact List.mem_map.mpr ⟨it', hit', rfl⟩
      · exact hfresh it' (List.mem_cons_of_mem _ hit') hm
    have hle' : (SupabaseCache.set it.1 it.2.1 it.2.2 true st).memory_cache.length
        ≤ (SupabaseCache.set it.1 it.2.1 it.2.2 true st).max_memory_entries := by
      rw [hlen', hmax']
      omega
    rw [ih _ hfresh' hnd' hle', hlen', hmax', List.length_cons]
    omega

/-- A cache state given by its four components (used to state claims
without record-literal noise). -/
def mkCache (ttl : Int) (mem : List (String × Entry)) (cap : Nat)
    (sup : Option (List Row)) : CacheState :=
  { ttl_days := ttl, memory_cache := mem, max_memory_entries := cap, supabase := sup }

/-- Claim C5: inserting `capacity + 1` distinct keys into the memory tier
leaves exactly `capacity` entries, and an insert of a fresh key into a
full memory tier evicts exactly one entry — one whose `last_accessed` is
minimal in the dict after the insert. -/
theorem memory_tier_eviction :
    (∀ (items : List (Int × String × SetData)) (ttl : Int) (cap : Nat)
      (sup : Option (List Row)),
      (items.map (fun it => it.2.1)).Nodup →
      items.length = cap + 1 →
      (setMany items (mkCache ttl [] cap sup)).memory_cache.length = cap) ∧
    (∀ (st : CacheState) (now : Int) (k : String) (d : SetData) (u : Bool),
      k ∉ st.memory_cache.map Prod.fst →
      st.memory_cache.length = st.max_memory_entries →
      ∃ k0 e0, (k0, e0) ∈ dinsert k (freshEntry now d) st.memory_cache ∧
        (∀ p ∈ dinsert k (freshEntry now d) st.memory_cache,
          e0.last_accessed ≤ p.2.last_accessed) ∧
        (SupabaseCache.set now k d u st).memory_cache
          = removeKey k0 (dinsert k (freshEntry now d) st.memory_cache) ∧
        (SupabaseCache.set now k d u st).memory_cache.length
          = st.max_memory_entries) := by
  constructor
  · intro items ttl cap sup hnd hlen
    rw [setMany_length items _ (by intro it hit hmem; simp [mkCache] at hmem) hnd
      (by simp [mkCache])]
    simp only [mkCache, List.length_nil, Nat.zero_add, hlen]
    omega
  · intro st now k d u hk hfull
    have hlen : (dinsert k (freshEntry now d) st.memory_cache).length
        = st.max_memory_entries + 1 := by
      rw [length_dinsert_not_mem k _ _ hk, hfull]
    have hne : dinsert k (freshEntry now d) st.memory_cache ≠ [] := by
      intro he
      rw [he] at hlen
      simp at hlen
    cases hm : minKeyByLA (dinsert k (freshEntry now d) st.memory_cache) with
    | none => exact absurd (minKeyByLA_eq_none hm) hne
    | some kl =>
      obtain ⟨e0, hmem, hla⟩ := minKeyByLA_mem hm
      refine ⟨kl.1, e0, hmem, ?_, ?_, ?_⟩
      · intro p hp
        rw [hla]
        exact minKeyByLA_le hm p hp
      · rw [set_memory_cache]
        simp only [evictStep, if_pos (by omega : st.max_memory_entries
          < (dinsert k (freshEntry now d) st.memory_cache).length), hm]
      · rw [set_memory_cache, length_evictStep_of_gt hlen]

/-- The two concrete data records used by the C5 witness. -/
def dA : SetData := { answer := "x", tokens := none, subject := none, chapter := none, question := none }

/-- Second concrete data record for the C5 witness. -/
def dB : SetData := { answer := "y", tokens := none, subject := none, chapter := none, question := none }

/-- Witness for C5 at capacity 1: two distinct keys leave one entry, and
a fresh insert into a full tier evicts a minimal-recency entry. -/
theorem memory_tier_eviction_witness :
    (setMany [(0, "a", dA), (1, "b", dB)] (mkCache 7 [] 1 none)).memory_cache.length = 1 ∧
    (∃ k0 e0, (k0, e0) ∈ dinsert "b" (freshEntry 1 dB) [("a", freshEntry 0 dA)] ∧
      (∀ p ∈ dinsert "b" (freshEntry 1 dB) [("a", freshEntry 0 dA)],
        e0.last_accessed ≤ p.2.last_accessed) ∧
      (SupabaseCache.set 1 "b" dB true
          (mkCache 7 [("a", freshEntry 0 dA)] 1 none)).memory_cache
        = removeKey k0 (dinsert "b" (freshEntry 1 dB) [("a", freshEntry 0 dA)]) ∧
      (SupabaseCache.set 1 "b" dB true
          (mkCache 7 [("a", freshEntry 0 dA)] 1 none)).memory_cache.length = 1) :=
  ⟨memory_tier_eviction.1 [(0, "a", dA), (1, "b", dB)] 7 1 none (by decide) rfl,
    memory_tier_eviction.2 (mkCache 7 [("a", freshEntry 0 dA)] 1 none)
      1 "b" dB true (by decide) rfl⟩

theorem countP_key_eq_zero {k : String} {m : List (String × Entry)}
    (h : k ∉ m.map Prod.fst) : m.countP (fun p => p.1 == k) = 0 := by
  induction m with
  | nil => simp
  | cons p rest ih =>
    simp only [List.map_cons, List.mem_cons, not_or] at h
    have hp : (p.1 == k) = false := by
      simp only [beq_eq_false_iff_ne, ne_eq]
      exact fun he => h.1 he.symm
    simp [List.countP_cons, hp, ih h.2]

theorem countP_key_dinsert {k : String} {v : Entry} {m : List (String × Entry)}
    (hnd : (m.map Prod.fst).Nodup) :
    (dinsert k v m).countP (fun p => p.1 == k) = 1 := by
  induction m with
  | nil => simp [dinsert, List.countP_cons]
  | cons p rest ih =>
    simp only [List.map_cons, List.nodup_cons] at hnd
    by_cases hp : p.1 = k
    · have hr : k ∉ rest.map Prod.fst := hp ▸ hnd.1
      simp [dinsert, hp, List.countP_cons, countP_key_eq_zero hr]
    · have hpb : (p.1 == k) = false := by
        simp only [beq_eq_false_iff_ne, ne_eq]
        exact hp
      simp [dinsert, hp, List.countP_cons, hpb, ih hnd.2]

/-- Claim C6: a `set` on a key that already holds an entry replaces it —
exactly one entry at the key afterwards, with `access_count` reset to 1
and `created_at` reset to the time of the second `set`. -/
theorem reset_on_reuse (st : CacheState) (now : Int) (k : String) (d : SetData) (u : Bool)
    (hnd : (st.memory_cache.map Prod.fst).Nodup)
    (hk : k ∈ st.memory_cache.map Prod.fst)
    (hle : st.memory_cache.length ≤ st.max_memory_entries) :
    ((SupabaseCache.set now k d u st).memory_cache.countP (fun p => p.1 == k) = 1) ∧
    (dlookup k (SupabaseCache.set now k d u st).memory_cache = some (freshEntry now d)) ∧
    (freshEntry now d).access_count = 1 ∧
    (freshEntry now d).created_at = some (TimeStamp.parsable now) := by
  have hlen := length_dinsert_mem k (freshEntry now d) st.memory_cache hk
  have hmem : (SupabaseCache.set now k d u st).memory_cache
      = dinsert k (freshEntry now d) st.memory_cache := by
    rw [set_memory_cache]
    exact evictStep_eq_of_le (by omega)
  rw [hmem]
  exact ⟨countP_key_dinsert hnd, dlookup_dinsert_self k _ _, rfl, rfl⟩

/-- Witness for C6: re-setting the lone key of a one-entry cache. -/
theorem reset_on_reuse_witness :
    ((SupabaseCache.set 9 "a" dB true
        (mkCache 7 [("a", freshEntry 0 dA)] 1 none)).memory_cache.countP
      (fun p => p.1 == "a") = 1) ∧
    (dlookup "a" (SupabaseCache.set 9 "a" dB true
        (mkCache 7 [("a", freshEntry 0 dA)] 1 none)).memory_cache
      = some (freshEntry 9 dB)) ∧
    (freshEntry 9 dB).access_count = 1 ∧
    (freshEntry 9 dB).created_at = some (TimeStamp.parsable 9) :=
  reset_on_reuse (mkCache 7 [("a", freshEntry 0 dA)] 1 none) 9 "a" dB true
    (by decide) (by decide) (by decide)

/-- The in-place counter bump a memory-tier hit performs on its entry. -/
def bumpEntry (now : Int) (e : Entry) : Entry :=
  { e with access_count := e.access_count + 1, last_accessed := now }

/-- The value/state pair `SupabaseCache.get` produces on a valid memory
hit: the bumped entry, written back in place. -/
theorem get_memory_hit (now : Int) (k : String) (fOk dOk upOk : Bool)
    (st : CacheState) (e : Entry)
    (he : dlookup k st.memory_cache = some e)
    (hv : SupabaseCache.is_valid st.ttl_days now e = true) :
    SupabaseCache.get now k fOk dOk upOk st
      = (some (bumpEntry now e),
        { st with memory_cache := dinsert k (bumpEntry now e) st.memory_cache }) := by
  simp only [SupabaseCache.get, he, hv, if_true, bumpEntry]

/-- Claim C7: when the durable tier is unavailable (missing credentials,
missing dependency, or failed startup probe — which a fail-on-every-call
durable tier implies), `set` then `get` succeeds via the memory tier
alone, and `get_stats` reports 0 durable entries, a not-connected flag
and memory-only storage mode, without raising. -/
theorem durable_unavailable_graceful (ttl : Int) (url skey : String) (io po : Bool)
    (remote : List Row) (now : Int) (k : String) (d : SetData)
    (uOk fOk dOk upOk cOk sOk : Bool)
    (hun : url = "" ∨ skey = "" ∨ io = false ∨ po = false)
    (httl : 0 < ttl) :
    (∃ e, (SupabaseCache.get now k fOk dOk upOk
        (SupabaseCache.set now k d uOk
          (SupabaseCache.init ttl url skey io po remote))).1 = some e ∧
      e.answer = d.answer) ∧
    ((SupabaseCache.get_stats cOk sOk
      (SupabaseCache.get now k fOk dOk upOk
        (SupabaseCache.set now k d uOk
          (SupabaseCache.init ttl url skey io po remote))).2).supabase_entries = 0 ∧
    (SupabaseCache.get_stats cOk sOk
      (SupabaseCache.get now k fOk dOk upOk
        (SupabaseCache.set now k d uOk
          (SupabaseCache.init ttl url skey io po remote))).2).supabase_connected = false ∧
    (SupabaseCache.get_stats cOk sOk
      (SupabaseCache.get now k fOk dOk upOk
        (SupabaseCache.set now k d uOk
          (SupabaseCache.init ttl url skey io po remote))).2).storage_mode
      = "Memory Only") := by
  have hinit : SupabaseCache.init ttl url skey io po remote = mkCache ttl [] 100 none := by
    rcases hun with h | h | h | h <;> simp [SupabaseCache.init, mkCache, h]
  rw [hinit]
  have hmem : (SupabaseCache.set now k d uOk (mkCache ttl [] 100 none)).memory_cache
      = dinsert k (freshEntry now d) [] :=
    set_memory_cache_of_room now k d uOk _ (by simp [mkCache])
  have hlook : dlookup k
      (SupabaseCache.set now k d uOk (mkCache ttl [] 100 none)).memory_cache
      = some (freshEntry now d) := by
    rw [hmem]
    exact dlookup_dinsert_self k _ _
  have hv : SupabaseCache.is_valid
      (SupabaseCache.set now k d uOk (mkCache ttl [] 100 none)).ttl_days now
      (freshEntry now d) = true :=
    is_valid_fresh ttl now d httl
  have hget := get_memory_hit now k fOk dOk upOk _ _ hlook hv
  rw [hget]
  refine ⟨⟨_, rfl, rfl⟩, ?_, ?_, ?_⟩ <;>
    simp [SupabaseCache.get_stats, SupabaseCache.set, mkCache]

/-- Witness for C7 with empty credentials. -/
theorem durable_unavailable_graceful_witness :
    (∃ e, (SupabaseCache.get 3 "k" true true true
        (SupabaseCache.set 3 "k" dA true
          (SupabaseCache.init 7 "" "" true true []))).1 = some e ∧
      e.answer = dA.answer) ∧
    ((SupabaseCache.get_stats true true
      (SupabaseCache.get 3 "k" true true true
        (SupabaseCache.set 3 "k" dA true
          (SupabaseCache.init 7 "" "" true true []))).2).supabase_entries = 0 ∧
    (SupabaseCache.get_stats true true
      (SupabaseCache.get 3 "k" true true true
        (SupabaseCache.set 3 "k" dA true
          (SupabaseCache.init 7 "" "" true true []))).2).supabase_connected = false ∧
    (SupabaseCache.get_stats true true
      (SupabaseCache.get 3 "k" true true true
        (SupabaseCache.set 3 "k" dA true
          (SupabaseCache.init 7 "" "" true true []))).2).storage_mode = "Memory Only") :=
  durable_unavailable_graceful 7 "" "" true true [] 3 "k" dA
    true true true true true true (Or.inl rfl) (by decide)

/-- Claim C8: the in-memory write of `set` is identical whether the
durable upsert succeeds or fails, the fresh entry is readable from the
memory dict, and a `get` after a failed durable write (all durable calls
failing) still returns it. -/
theorem set_memory_independent_of_durable (st : CacheState) (now : Int) (k : String)
    (d : SetData) (u1 u2 : Bool)
    (hcap : st.memory_cache.length < st.max_memory_entries)
    (httl : 0 < st.ttl_days) :
    ((SupabaseCache.set now k d u1 st).memory_cache
      = (SupabaseCache.set now k d u2 st).memory_cache) ∧
    (dlookup k (SupabaseCache.set now k d u1 st).memory_cache
      = some (freshEntry now d)) ∧
    (∃ e, (SupabaseCache.get now k false false false
      (SupabaseCache.set now k d false st)).1 = some e ∧
      e.answer = d.answer ∧ e.created_at = some (TimeStamp.parsable now) ∧
      e.access_count = 2) := by
  refine ⟨rfl, ?_, ?_⟩
  · rw [set_memory_cache_of_room now k d u1 st hcap]
    exact dlookup_dinsert_self k _ _
  · have hlook : dlookup k (SupabaseCache.set now k d false st).memory_cache
        = some (freshEntry now d) := by
      rw [set_memory_cache_of_room now k d false st hcap]
      exact dlookup_dinsert_self k _ _
    have hv : SupabaseCache.is_valid
        (SupabaseCache.set now k d false st).ttl_days now (freshEntry now d) = true :=
      is_valid_fresh st.ttl_days now d httl
    rw [get_memory_hit now k false false false _ _ hlook hv]
    exact ⟨_, rfl, rfl, rfl, rfl⟩

/-- Witness for C8 on an empty one-slot cache with a connected durable
tier whose upsert call fails. -/
theorem set_memory_independent_of_durable_witness :
    ((SupabaseCache.set 2 "k" dA true (mkCache 7 [] 1 (some []))).memory_cache
      = (SupabaseCache.set 2 "k" dA false (mkCache 7 [] 1 (some []))).memory_cache) ∧
    (dlookup "k" (SupabaseCache.set 2 "k" dA true
      (mkCache 7 [] 1 (some []))).memory_cache = some (freshEntry 2 dA)) ∧
    (∃ e, (SupabaseCache.get 2 "k" false false false
      (SupabaseCache.set 2 "k" dA false (mkCache 7 [] 1 (some [])))).1 = some e ∧
      e.answer = dA.answer ∧ e.created_at = some (TimeStamp.parsable 2) ∧
      e.access_count = 2) :=
  set_memory_independent_of_durable (mkCache 7 [] 1 (some [])) 2 "k" dA true false
    (by decide) (by decide)

/-- A concrete durable row whose `created_at` string does not parse. -/
def sampleRowUnparsable : Row :=
  { key_hash := "k", answer := "a", tokens := none, subject := none,
    chapter := none, question := none, access_count := none,
    created_at := some TimeStamp.unparsable, last_accessed := none }

/-- A concrete durable row whose `created_at` is absent. -/
def sampleRowMissing : Row :=
  { key_hash := "k", answer := "a", tokens := none, subject := none,
    chapter := none, question := none, access_count := none,
    created_at := none, last_accessed := none }

/-- Claim C9: an unparsable stored `created_at` is fail-open on both
paths — the memory-tier validity check accepts the entry, and the durable
read path does not treat it as expired: it returns the row as a hit and
issues no delete (the row is still in the table afterwards). -/
theorem unparsable_timestamp_fail_open :
    (∀ (ttl now : Int) (e : Entry), e.created_at = some TimeStamp.unparsable →
      SupabaseCache.is_valid ttl now e = true) ∧
    (∀ (ttl now : Int) (maxN : Nat) (row : Row) (dOk upOk : Bool),
      row.created_at = some TimeStamp.unparsable →
      ∃ e t', (SupabaseCache.get now row.key_hash true dOk upOk
          (mkCache ttl [] maxN (some [row]))).1 = some e ∧
        e.answer = row.answer ∧
        e.created_at = some TimeStamp.unparsable ∧
        (SupabaseCache.get now row.key_hash true dOk upOk
          (mkCache ttl [] maxN (some [row]))).2.supabase = some t' ∧
        t'.length = 1) := by
  constructor
  · intro ttl now e he
    simp [SupabaseCache.is_valid, he]
  · intro ttl now maxN row dOk upOk hrow
    cases upOk <;>
      simp [SupabaseCache.get, dlookup, durableGet, mkCache, hrow]

/-- Witness for C9: a memory entry and a durable row with an unparsable
`created_at`. -/
theorem unparsable_timestamp_fail_open_witness :
    (SupabaseCache.is_valid 7 0
      { freshEntry 0 dA with created_at := some TimeStamp.unparsable } = true) ∧
    (∃ e t', (SupabaseCache.get 0 "k" true true true
        (mkCache 7 [] 100 (some [sampleRowUnparsable]))).1 = some e ∧
      e.answer = sampleRowUnparsable.answer ∧
      e.created_at = some TimeStamp.unparsable ∧
      (SupabaseCache.get 0 "k" true true true
        (mkCache 7 [] 100 (some [sampleRowUnparsable]))).2.supabase = some t' ∧
      t'.length = 1) :=
  ⟨unparsable_timestamp_fail_open.1 7 0
      { freshEntry 0 dA with created_at := some TimeStamp.unparsable } rfl,
    unparsable_timestamp_fail_open.2 7 0 100 sampleRowUnparsable true true rfl⟩

/-- Claim C10: a missing (absent/NULL) `created_at` splits the tiers —
the memory-tier validity check rejects the entry (so a memory-only `get`
misses), while the durable read path treats the row as not expired,
returns it as a hit and does not delete it. -/
theorem missing_created_at_divergence :
    (∀ (ttl now : Int) (e : Entry), e.created_at = none →
      SupabaseCache.is_valid ttl now e = false) ∧
    (∀ (ttl now : Int) (maxN : Nat) (k : String) (e : Entry) (fOk dOk upOk : Bool),
      e.created_at = none →
      (SupabaseCache.get now k fOk dOk upOk (mkCache ttl [(k, e)] maxN none)).1 = none) ∧
    (∀ (ttl now : Int) (maxN : Nat) (row : Row) (dOk upOk : Bool),
      row.created_at = none →
      ∃ e t', (SupabaseCache.get now row.key_hash true dOk upOk
          (mkCache ttl [] maxN (some [row]))).1 = some e ∧
        e.answer = row.answer ∧
        (SupabaseCache.get now row.key_hash true dOk upOk
          (mkCache ttl [] maxN (some [row]))).2.supabase = some t' ∧
        t'.length = 1) := by
  refine ⟨?_, ?_, ?_⟩
  · intro ttl now e he
    simp [SupabaseCache.is_valid, he]
  · intro ttl now maxN k e fOk dOk upOk he
    simp [SupabaseCache.get, dlookup, SupabaseCache.is_valid, durableGet, mkCache, he]
  · intro ttl now maxN row dOk upOk hrow
    cases upOk <;>
      simp [SupabaseCache.get, dlookup, durableGet, mkCache, hrow]

/-- Witness for C10: entry and row with `created_at` absent. -/
theorem missing_created_at_divergence_witness :
    (SupabaseCache.is_valid 7 0 { freshEntry 0 dA with created_at := none } = false) ∧
    ((SupabaseCache.get 0 "k" true true true
      (mkCache 7 [("k", { freshEntry 0 dA with created_at := none })] 100 none)).1
        = none) ∧
    (∃ e t', (SupabaseCache.get 0 "k" true true true
        (mkCache 7 [] 100 (some [sampleRowMissing]))).1 = some e ∧
      e.answer = sampleRowMissing.answer ∧
      (SupabaseCache.get 0 "k" true true true
        (mkCache 7 [] 100 (some [sampleRowMissing]))).2.supabase = some t' ∧
      t'.length = 1) :=
  ⟨missing_created_at_divergence.1 7 0 { freshEntry 0 dA with created_at := none } rfl,
    missing_created_at_divergence.2.1 7 0 100 "k"
      { freshEntry 0 dA with created_at := none } true true true rfl,
    missing_created_at_divergence.2.2 7 0 100 sampleRowMissing true true rfl⟩

end SebaCache
